import Mathlib

/-!
Verification of the dispatch core of the tow-truck service backend
(`domains/tow_truck_service.rs`, `domains/order_service.rs`,
`repositories/order_repository.rs`).

The Rust code is shallowly embedded: `i32` values become `Int` (the literals
`2147483647` and `10000001` mirror `i32::MAX` and the source's distance
sentinel), `HashMap<i32, i32>` becomes an association list with
first-match lookup, `BinaryHeap<State>` becomes a list with minimum-cost
extraction, and the `async` repository calls of the orchestrator become
explicit state passing over a `World` record together with an effect trace.
The main loop of `Graph::dijkstra` is embedded with an explicit fuel
parameter; a run that ends with an empty frontier corresponds to a
terminating run of the Rust loop.
-/

/-- An outgoing edge as used by `Graph::dijkstra` (`edge.node_b_id`,
`edge.weight` in `tow_truck_service.rs`). The model `models/graph.rs` is not
part of the sources; the two fields are exactly the ones the embedded code
reads. -/
structure Edge where
  node_b_id : Int
  weight : Int
deriving DecidableEq

/-- The graph: an adjacency mapping from node id to outgoing edges
(`self.edges : HashMap<i32, Vec<Edge>>` in the source). -/
structure Graph where
  edges : List (Int × List Edge)
deriving DecidableEq

/-- Association-list lookup, the observable behaviour of `HashMap::get`. -/
def edgesGet : List (Int × List Edge) → Int → Option (List Edge)
  | [], _ => none
  | (k, l) :: t, n => if k = n then some l else edgesGet t n

/-- The outgoing edges of a node; `none` from `self.edges.get(&node_id)`
makes the `if let Some(edges)` body a no-op, i.e. an empty edge list. -/
def Graph.edgesOf (g : Graph) (n : Int) : List Edge :=
  (edgesGet g.edges n).getD []

/-- A frontier entry, mirroring `struct State { node_id, cost }`. -/
structure State where
  node_id : Int
  cost : Int
deriving DecidableEq

/-- The distance map `distances : HashMap<i32, i32>`, embedded as an
association list whose lookup returns the most recent insertion. -/
abbrev DistMap := List (Int × Int)

/-- Embeds `distances.get(&n).cloned()`. -/
def distGet : DistMap → Int → Option Int
  | [], _ => none
  | (k, v) :: t, n => if k = n then some v else distGet t n

/-- Embeds `distances.insert(k, v)`: the new binding shadows any older one. -/
def distInsert (d : DistMap) (k v : Int) : DistMap := (k, v) :: d

/-- Embeds `BinaryHeap::pop` for the reversed cost order of `impl Ord for State`:
extract an entry of minimal cost (ties resolved arbitrarily by the heap;
the first minimal entry is taken here). -/
def popMin : List State → Option (State × List State)
  | [] => none
  | s :: rest =>
    match popMin rest with
    | none => some (s, [])
    | some (m, rest2) => if s.cost ≤ m.cost then some (s, rest) else some (m, s :: rest2)

/-- The `for edge in edges` relaxation loop of `Graph::dijkstra`: for each
edge, `next.cost = cost + edge.weight` is compared against
`distances.get(&next.node_id).cloned().unwrap_or(i32::MAX)` and on
improvement the map is updated and the entry pushed. -/
def relaxList (cost : Int) : List Edge → DistMap → List State → DistMap × List State
  | [], dist, heap => (dist, heap)
  | e :: es, dist, heap =>
    if cost + e.weight < (distGet dist e.node_b_id).getD 2147483647 then
      relaxList cost es (distInsert dist e.node_b_id (cost + e.weight))
        (⟨e.node_b_id, cost + e.weight⟩ :: heap)
    else relaxList cost es dist heap

/-- The `while let Some(State { node_id, cost }) = heap.pop()` loop of
`Graph::dijkstra`, with fuel. A stale entry (`cost > current_cost`) is
skipped; otherwise the node's edges are relaxed. When the fuel runs out the
current state is returned; a run whose final frontier is `[]` is a
terminated run of the Rust loop. -/
def dijkstraLoop (g : Graph) : Nat → DistMap → List State → DistMap × List State
  | 0, dist, heap => (dist, heap)
  | fuel + 1, dist, heap =>
    match popMin heap with
    | none => (dist, heap)
    | some (s, rest) =>
      match distGet dist s.node_id with
      | some current_cost =>
        if current_cost < s.cost then dijkstraLoop g fuel dist rest
        else
          dijkstraLoop g fuel
            (relaxList s.cost (g.edgesOf s.node_id) dist rest).1
            (relaxList s.cost (g.edgesOf s.node_id) dist rest).2
      | none =>
        dijkstraLoop g fuel
          (relaxList s.cost (g.edgesOf s.node_id) dist rest).1
          (relaxList s.cost (g.edgesOf s.node_id) dist rest).2

/-- Embeds `Graph::dijkstra`: the start node is seeded at cost 0 in both the map
and the frontier, then the main loop runs. Returns the final distance map
together with the remaining frontier. -/
def dijkstraRun (g : Graph) (start_node_id : Int) (fuel : Nat) : DistMap × List State :=
  dijkstraLoop g fuel (distInsert [] start_node_id 0) [⟨start_node_id, 0⟩]

/-- The distance map returned by `Graph::dijkstra`. -/
def Graph.dijkstra (g : Graph) (start_node_id : Int) (fuel : Nat) : DistMap :=
  (dijkstraRun g start_node_id fuel).1

/-- The path-cost relation: `Reaches g start n c` says there is a directed path from `start` to `n` in
`g` whose accumulated edge-weight sum is `c`. -/
inductive Reaches (g : Graph) (start : Int) : Int → Int → Prop
  | refl : Reaches g start start 0
  | step {u c : Int} {e : Edge} : Reaches g start u c → e ∈ g.edgesOf u →
      Reaches g start e.node_b_id (c + e.weight)

/-- A node is reachable when some path reaches it. -/
def Reachable (g : Graph) (start n : Int) : Prop := ∃ c, Reaches g start n c

/-- All edge weights stored in the graph are non-negative. -/
def NonnegWeights (g : Graph) : Prop :=
  ∀ p ∈ g.edges, ∀ e ∈ p.2, 0 ≤ e.weight

instance (g : Graph) : Decidable (NonnegWeights g) := by
  unfold NonnegWeights; infer_instance

theorem popMin_eq_none {l : List State} (h : popMin l = none) : l = [] := by
  cases l with
  | nil => rfl
  | cons s rest =>
    simp only [popMin] at h
    rcases hr : popMin rest with _ | p
    · rw [hr] at h; cases h
    · rw [hr] at h
      by_cases hc : s.cost ≤ p.1.cost <;> simp [hc] at h

theorem popMin_mem : ∀ {l : List State} {s : State} {r : List State},
    popMin l = some (s, r) → s ∈ l
  | [], s, r => by intro h; cases h
  | a :: rest, s, r => by
    intro h
    simp only [popMin] at h
    rcases hr : popMin rest with _ | p
    · rw [hr] at h
      cases h
      exact List.mem_cons_self _ _
    · rw [hr] at h
      by_cases hc : a.cost ≤ p.1.cost
      · simp only [hc, if_pos] at h
        cases h
        exact List.mem_cons_self _ _
      · simp only [hc, if_neg, not_false_iff] at h
        cases h
        exact List.mem_cons_of_mem _ (popMin_mem hr)

theorem popMin_cover : ∀ {l : List State} {s : State} {r : List State},
    popMin l = some (s, r) → ∀ y ∈ l, y = s ∨ y ∈ r
  | [], s, r => by intro h; cases h
  | a :: rest, s, r => by
    intro h y hy
    simp only [popMin] at h
    rcases hr : popMin rest with _ | p
    · rw [hr] at h
      cases h
      rcases List.mem_cons.mp hy with h1 | h1
      · exact Or.inl h1
      · rw [popMin_eq_none hr] at h1; cases h1
    · rw [hr] at h
      by_cases hc : a.cost ≤ p.1.cost
      · simp only [hc, if_pos] at h
        cases h
        rcases List.mem_cons.mp hy with h1 | h1
        · exact Or.inl h1
        · exact Or.inr h1
      · simp only [hc, if_neg, not_false_iff] at h
        cases h
        rcases List.mem_cons.mp hy with h1 | h1
        · exact Or.inr (h1 ▸ List.mem_cons_self _ _)
        · rcases popMin_cover hr y h1 with h2 | h2
          · exact Or.inl h2
          · exact Or.inr (List.mem_cons_of_mem _ h2)

theorem popMin_subset : ∀ {l : List State} {s : State} {r : List State},
    popMin l = some (s, r) → ∀ y ∈ r, y ∈ l
  | [], s, r => by intro h; cases h
  | a :: rest, s, r => by
    intro h y hy
    simp only [popMin] at h
    rcases hr : popMin rest with _ | p
    · rw [hr] at h
      cases h
      cases hy
    · rw [hr] at h
      by_cases hc : a.cost ≤ p.1.cost
      · simp only [hc, if_pos] at h
        cases h
        exact List.mem_cons_of_mem _ hy
      · simp only [hc, if_neg, not_false_iff] at h
        cases h
        rcases List.mem_cons.mp hy with h1 | h1
        · exact h1 ▸ List.mem_cons_self _ _
        · exact List.mem_cons_of_mem _ (popMin_subset hr y h1)

theorem distGet_insert_self (d : DistMap) (k v : Int) :
    distGet (distInsert d k v) k = some v := by
  simp [distInsert, distGet]

theorem distGet_insert_ne (d : DistMap) (k v x : Int) (hx : x ≠ k) :
    distGet (distInsert d k v) x = distGet d x := by
  simp [distInsert, distGet, Ne.symm hx]

theorem edgesGet_mem : ∀ {L : List (Int × List Edge)} {n : Int} {l : List Edge},
    edgesGet L n = some l → (n, l) ∈ L
  | [], n, l => by intro h; cases h
  | (k, kl) :: t, n, l => by
    intro h
    simp only [edgesGet] at h
    by_cases hk : k = n
    · simp only [hk, if_pos] at h
      cases h
      exact hk ▸ List.mem_cons_self _ _
    · simp only [hk, if_neg, not_false_iff] at h
      exact List.mem_cons_of_mem _ (edgesGet_mem h)

theorem nonneg_edgesOf {g : Graph} (hw : NonnegWeights g) {n : Int} {e : Edge}
    (he : e ∈ g.edgesOf n) : 0 ≤ e.weight := by
  unfold Graph.edgesOf at he
  rcases hg : edgesGet g.edges n with _ | l
  · rw [hg] at he; cases he
  · rw [hg] at he
    exact hw (n, l) (edgesGet_mem hg) e he

theorem reaches_nonneg {g : Graph} (hw : NonnegWeights g) {start n c : Int}
    (h : Reaches g start n c) : 0 ≤ c := by
  induction h with
  | refl => exact le_refl 0
  | step _ he ih => exact add_nonneg ih (nonneg_edgesOf hw he)

/-- All edges out of `n` have been relaxed against base cost `c`: the target
either carries a distance at most `c + weight`, or that candidate cost
already reaches the `i32::MAX` guard. -/
def RelaxedAt (g : Graph) (d : DistMap) (n c : Int) : Prop :=
  ∀ e ∈ g.edgesOf n,
    (∃ cv, distGet d e.node_b_id = some cv ∧ cv ≤ c + e.weight) ∨
      2147483647 ≤ c + e.weight

/-- Pointwise refinement: `d2` refines `d` when every key of `d` is a key of `d2` with a
value that is no larger. Distance maps only ever shrink pointwise. -/
def DistLE (d2 d : DistMap) : Prop :=
  ∀ x c, distGet d x = some c → ∃ c2, distGet d2 x = some c2 ∧ c2 ≤ c

theorem DistLE.rfl (d : DistMap) : DistLE d d :=
  fun _ c h => ⟨c, h, le_refl c⟩

theorem DistLE.trans {d3 d2 d : DistMap} (h32 : DistLE d3 d2) (h21 : DistLE d2 d) :
    DistLE d3 d := by
  intro x c h
  obtain ⟨c2, h2, hle2⟩ := h21 x c h
  obtain ⟨c3, h3, hle3⟩ := h32 x c2 h2
  exact ⟨c3, h3, le_trans hle3 hle2⟩

theorem RelaxedAt.mono {g : Graph} {d2 d : DistMap} {n c : Int}
    (hle : DistLE d2 d) (h : RelaxedAt g d n c) : RelaxedAt g d2 n c := by
  intro e he
  rcases h e he with ⟨cv, hcv, hle2⟩ | hmax
  · obtain ⟨cv2, hcv2, hle3⟩ := hle _ _ hcv
    exact Or.inl ⟨cv2, hcv2, le_trans hle3 hle2⟩
  · exact Or.inr hmax

/-- The loop invariant of the embedded `Graph::dijkstra`:
every frontier entry's node already carries a distance bounded by the
entry's cost; every recorded distance is the cost of an actual path; every
recorded distance is still on the frontier or fully relaxed; the start node
carries a non-positive distance; and all recorded distances are below the
`i32::MAX` guard. -/
structure DInv (g : Graph) (start : Int) (d : DistMap) (h : List State) : Prop where
  heapLB : ∀ s ∈ h, ∃ cu, distGet d s.node_id = some cu ∧ cu ≤ s.cost
  soundD : ∀ n c, distGet d n = some c → Reaches g start n c
  frontier : ∀ n c, distGet d n = some c → (⟨n, c⟩ : State) ∈ h ∨ RelaxedAt g d n c
  startLB : ∃ c0, distGet d start = some c0 ∧ c0 ≤ 0
  valBound : ∀ n c, distGet d n = some c → c < 2147483647

/-- The invariant carried through one execution of the relaxation loop for
the popped node `n` at base cost `cost`: like `DInv`, except that the pair
`(n, cost)` itself is exempt from the frontier obligation (its frontier
entry has just been popped and its edges are being relaxed). -/
structure RInv (g : Graph) (start n cost : Int) (d : DistMap) (h : List State) : Prop where
  heapLB : ∀ s ∈ h, ∃ cu, distGet d s.node_id = some cu ∧ cu ≤ s.cost
  soundD : ∀ m c, distGet d m = some c → Reaches g start m c
  frontX : ∀ m c, distGet d m = some c → ¬(m = n ∧ c = cost) →
      (⟨m, c⟩ : State) ∈ h ∨ RelaxedAt g d m c
  startLB : ∃ c0, distGet d start = some c0 ∧ c0 ≤ 0
  valBound : ∀ m c, distGet d m = some c → c < 2147483647

theorem relaxList_inv (g : Graph) (start n cost : Int)
    (hreach : Reaches g start n cost) :
    ∀ (es : List Edge) (d : DistMap) (h : List State),
      (∀ e ∈ es, e ∈ g.edgesOf n) → RInv g start n cost d h →
      RInv g start n cost (relaxList cost es d h).1 (relaxList cost es d h).2 ∧
      DistLE (relaxList cost es d h).1 d ∧
      ∀ e ∈ es,
        (∃ cv, distGet (relaxList cost es d h).1 e.node_b_id = some cv ∧
            cv ≤ cost + e.weight) ∨ 2147483647 ≤ cost + e.weight := by
  intro es
  induction es with
  | nil =>
    intro d h _ hinv
    refine ⟨hinv, DistLE.rfl d, ?_⟩
    intro e he
    cases he
  | cons e es ih =>
    intro d h hes hinv
    by_cases hlt : cost + e.weight < (distGet d e.node_b_id).getD 2147483647
    · have hrel : relaxList cost (e :: es) d h =
          relaxList cost es (distInsert d e.node_b_id (cost + e.weight))
            (⟨e.node_b_id, cost + e.weight⟩ :: h) := by
        simp only [relaxList, if_pos hlt]
      have hvlt : ∀ cx, distGet d e.node_b_id = some cx → cost + e.weight < cx := by
        intro cx hcx
        rw [hcx] at hlt
        exact hlt
      have hle2 : DistLE (distInsert d e.node_b_id (cost + e.weight)) d := by
        intro x c hx
        by_cases hxv : x = e.node_b_id
        · subst hxv
          exact ⟨cost + e.weight, distGet_insert_self d _ (cost + e.weight),
            le_of_lt (hvlt c hx)⟩
        · exact ⟨c, by rw [distGet_insert_ne d _ _ x hxv]; exact hx, le_refl c⟩
      have hinv2 : RInv g start n cost (distInsert d e.node_b_id (cost + e.weight))
          (⟨e.node_b_id, cost + e.weight⟩ :: h) := by
        constructor
        · intro s hs
          rcases List.mem_cons.mp hs with h1 | h1
          · subst h1
            exact ⟨cost + e.weight, distGet_insert_self d _ _, le_refl _⟩
          · obtain ⟨cu, hcu, hcule⟩ := hinv.heapLB s h1
            by_cases hsv : s.node_id = e.node_b_id
            · rw [hsv] at hcu
              refine ⟨cost + e.weight, by rw [hsv]; exact distGet_insert_self d _ _, ?_⟩
              exact le_trans (le_of_lt (hvlt cu hcu)) hcule
            · exact ⟨cu, by rw [distGet_insert_ne d _ _ _ hsv]; exact hcu, hcule⟩
        · intro m c hm
          by_cases hmv : m = e.node_b_id
          · subst hmv
            rw [distGet_insert_self] at hm
            cases hm
            exact Reaches.step hreach (hes e (List.mem_cons_self _ _))
          · rw [distGet_insert_ne d _ _ _ hmv] at hm
            exact hinv.soundD m c hm
        · intro m c hm hne
          by_cases hmv : m = e.node_b_id
          · subst hmv
            rw [distGet_insert_self] at hm
            cases hm
            exact Or.inl (List.mem_cons_self _ _)
          · rw [distGet_insert_ne d _ _ _ hmv] at hm
            rcases hinv.frontX m c hm hne with h1 | h1
            · exact Or.inl (List.mem_cons_of_mem _ h1)
            · exact Or.inr (h1.mono hle2)
        · obtain ⟨c0, h0, hle0⟩ := hinv.startLB
          obtain ⟨c2, h2, hle2x⟩ := hle2 start c0 h0
          exact ⟨c2, h2, le_trans hle2x hle0⟩
        · intro m c hm
          by_cases hmv : m = e.node_b_id
          · subst hmv
            rw [distGet_insert_self] at hm
            cases hm
            rcases hdv : distGet d e.node_b_id with _ | cx
            · rw [hdv] at hlt
              exact hlt
            · exact lt_trans (hvlt cx hdv) (hinv.valBound e.node_b_id cx hdv)
          · rw [distGet_insert_ne d _ _ _ hmv] at hm
            exact hinv.valBound m c hm
      obtain ⟨hinv3, hle3, hrelaxed3⟩ :=
        ih (distInsert d e.node_b_id (cost + e.weight))
          (⟨e.node_b_id, cost + e.weight⟩ :: h)
          (fun e2 he2 => hes e2 (List.mem_cons_of_mem _ he2)) hinv2
      rw [hrel]
      refine ⟨hinv3, hle3.trans hle2, ?_⟩
      intro e2 he2
      rcases List.mem_cons.mp he2 with h1 | h1
      · subst h1
        obtain ⟨cv, hcv, hcvle⟩ := hle3 e2.node_b_id (cost + e2.weight)
          (distGet_insert_self d _ _)
        exact Or.inl ⟨cv, hcv, hcvle⟩
      · exact hrelaxed3 e2 h1
    · have hrel : relaxList cost (e :: es) d h = relaxList cost es d h := by
        simp only [relaxList, if_neg hlt]
      obtain ⟨hinv3, hle3, hrelaxed3⟩ :=
        ih d h (fun e2 he2 => hes e2 (List.mem_cons_of_mem _ he2)) hinv
      rw [hrel]
      refine ⟨hinv3, hle3, ?_⟩
      intro e2 he2
      rcases List.mem_cons.mp he2 with h1 | h1
      · subst h1
        rcases hdv : distGet d e2.node_b_id with _ | cv
        · rw [hdv] at hlt
          exact Or.inr (le_of_not_lt hlt)
        · rw [hdv] at hlt
          obtain ⟨cv2, hcv2, hcvle2⟩ := hle3 e2.node_b_id cv hdv
          exact Or.inl ⟨cv2, hcv2, le_trans hcvle2 (le_of_not_lt hlt)⟩
      · exact hrelaxed3 e2 h1

theorem distGet_single {k v m c : Int} (h : distGet [(k, v)] m = some c) :
    k = m ∧ v = c := by
  simp only [distGet] at h
  by_cases hk : k = m
  · rw [if_pos hk] at h
    exact ⟨hk, Option.some_inj.mp h⟩
  · rw [if_neg hk] at h
    cases h

theorem dijkstraLoop_inv (g : Graph) (start : Int) :
    ∀ (fuel : Nat) (d : DistMap) (h : List State), DInv g start d h →
      DInv g start (dijkstraLoop g fuel d h).1 (dijkstraLoop g fuel d h).2 := by
  intro fuel
  induction fuel with
  | zero => intro d h hinv; exact hinv
  | succ fuel ih =>
    intro d h hinv
    rcases hpop : popMin h with _ | p
    · simpa [dijkstraLoop, hpop] using hinv
    · obtain ⟨s, rest⟩ := p
      have hs : s ∈ h := popMin_mem hpop
      obtain ⟨cu, hcu, hcule⟩ := hinv.heapLB s hs
      rcases hdg : distGet d s.node_id with _ | current
      · rw [hdg] at hcu
        exact Option.noConfusion hcu
      · have hcueq : cu = current := by
          rw [hdg] at hcu
          exact (Option.some_inj.mp hcu).symm
        by_cases hstale : current < s.cost
        · have heq : dijkstraLoop g (fuel + 1) d h = dijkstraLoop g fuel d rest := by
            simp [dijkstraLoop, hpop, hdg, hstale]
          rw [heq]
          apply ih
          refine ⟨fun s2 hs2 => hinv.heapLB s2 (popMin_subset hpop s2 hs2),
            hinv.soundD, ?_, hinv.startLB, hinv.valBound⟩
          intro m c hm
          rcases hinv.frontier m c hm with h1 | h1
          · rcases popMin_cover hpop _ h1 with h2 | h2
            · exfalso
              have hmn : m = s.node_id := congrArg State.node_id h2
              have hcn : c = s.cost := congrArg State.cost h2
              rw [hmn, hdg] at hm
              have : current = c := Option.some_inj.mp hm
              rw [this, hcn] at hstale
              exact lt_irrefl _ hstale
            · exact Or.inl h2
          · exact Or.inr h1
        · have hcs : current = s.cost :=
            le_antisymm (hcueq ▸ hcule) (le_of_not_lt hstale)
          have hreach : Reaches g start s.node_id s.cost := by
            rw [← hcs]
            exact hinv.soundD s.node_id current hdg
          have hrinv : RInv g start s.node_id s.cost d rest := by
            refine ⟨fun s2 hs2 => hinv.heapLB s2 (popMin_subset hpop s2 hs2),
              hinv.soundD, ?_, hinv.startLB, hinv.valBound⟩
            intro m c hm hne
            rcases hinv.frontier m c hm with h1 | h1
            · rcases popMin_cover hpop _ h1 with h2 | h2
              · exact absurd ⟨congrArg State.node_id h2, congrArg State.cost h2⟩ hne
              · exact Or.inl h2
            · exact Or.inr h1
          obtain ⟨hrinv2, _, hrelaxed2⟩ :=
            relaxList_inv g start s.node_id s.cost hreach (g.edgesOf s.node_id) d rest
              (fun e he => he) hrinv
          have heq : dijkstraLoop g (fuel + 1) d h =
              dijkstraLoop g fuel
                (relaxList s.cost (g.edgesOf s.node_id) d rest).1
                (relaxList s.cost (g.edgesOf s.node_id) d rest).2 := by
            simp [dijkstraLoop, hpop, hdg, hstale]
          rw [heq]
          apply ih
          refine ⟨hrinv2.heapLB, hrinv2.soundD, ?_, hrinv2.startLB, hrinv2.valBound⟩
          intro m c hm
          by_cases hmn : m = s.node_id ∧ c = s.cost
          · obtain ⟨h1, h2⟩ := hmn
            subst h1
            subst h2
            exact Or.inr (fun e he => hrelaxed2 e he)
          · exact hrinv2.frontX m c hm hmn

theorem dijkstraRun_inv (g : Graph) (start : Int) (fuel : Nat) :
    DInv g start (dijkstraRun g start fuel).1 (dijkstraRun g start fuel).2 := by
  apply dijkstraLoop_inv
  constructor
  · intro s hs
    rw [List.mem_singleton] at hs
    subst hs
    exact ⟨0, distGet_insert_self [] start 0, le_refl 0⟩
  · intro m c hm
    obtain ⟨h1, h2⟩ := distGet_single hm
    subst h1
    subst h2
    exact Reaches.refl
  · intro m c hm
    obtain ⟨h1, h2⟩ := distGet_single hm
    subst h1
    subst h2
    exact Or.inl (List.mem_singleton.mpr rfl)
  · exact ⟨0, distGet_insert_self [] start 0, le_refl 0⟩
  · intro m c hm
    obtain ⟨_, h2⟩ := distGet_single hm
    subst h2
    decide

theorem reaches_key {g : Graph} {start : Int} {d : DistMap}
    (hd : DInv g start d []) (hw : NonnegWeights g) :
    ∀ {n c : Int}, Reaches g start n c → c < 2147483647 →
      ∃ cv, distGet d n = some cv ∧ cv ≤ c := by
  intro n c hr
  induction hr with
  | refl =>
    intro _
    exact hd.startLB
  | step hu he ih =>
    rename_i u c2 e
    intro hlt
    have hw2 : 0 ≤ e.weight := nonneg_edgesOf hw he
    have hcu : c2 < 2147483647 := lt_of_le_of_lt (le_add_of_nonneg_right hw2) hlt
    obtain ⟨cu, hcud, hcule⟩ := ih hcu
    rcases hd.frontier u cu hcud with hmem | hrel
    · cases hmem
    · rcases hrel e he with ⟨cv, hcv, hcvle⟩ | hmax
      · exact ⟨cv, hcv, le_trans hcvle (add_le_add_right hcule e.weight)⟩
      · exact absurd hlt
          (not_lt.mpr (le_trans hmax (add_le_add_right hcule e.weight)))

/-- Claim C1: for every graph with non-negative edge weights and every
start node, a terminating run of `Graph::dijkstra` maps the start node to
cost `0`, and every node that appears as a key in the returned mapping is
mapped to the true minimal accumulated path cost from the start node to
that node over the graph's directed edges. -/
theorem dijkstra_maps_keys_to_minimal_cost (g : Graph) (start : Int) (fuel : Nat)
    (hw : NonnegWeights g) (hterm : (dijkstraRun g start fuel).2 = []) :
    distGet (g.dijkstra start fuel) start = some 0 ∧
    ∀ n c, distGet (g.dijkstra start fuel) n = some c →
      Reaches g start n c ∧ ∀ c2, Reaches g start n c2 → c ≤ c2 := by
  have hinv := dijkstraRun_inv g start fuel
  rw [hterm] at hinv
  constructor
  · obtain ⟨c0, h0, hle0⟩ := hinv.startLB
    have h0n : 0 ≤ c0 := reaches_nonneg hw (hinv.soundD start c0 h0)
    have hc0 : c0 = 0 := le_antisymm hle0 h0n
    rw [← hc0]
    exact h0
  · intro n c hc
    refine ⟨hinv.soundD n c hc, ?_⟩
    intro c2 hc2
    by_cases hlt : c2 < 2147483647
    · obtain ⟨cv, hcv, hcvle⟩ := reaches_key hinv hw hc2 hlt
      have hcx : distGet (dijkstraRun g start fuel).1 n = some c := hc
      have hceq : cv = c := by
        rw [hcv] at hcx
        exact Option.some_inj.mp hcx
      exact hceq ▸ hcvle
    · exact le_trans (le_of_lt (hinv.valBound n c hc)) (le_of_not_lt hlt)

theorem dijkstra_maps_keys_to_minimal_cost_witness :
    distGet ((Graph.mk [(1, [⟨2, 4⟩]), (2, [⟨3, 1⟩])]).dijkstra 1 10) 1 = some 0 :=
  (dijkstra_maps_keys_to_minimal_cost (Graph.mk [(1, [⟨2, 4⟩]), (2, [⟨3, 1⟩])]) 1 10
    (by decide) (by decide)).1

/-- Claim C6, counterexample: in the graph with the single edge
`1 → 2` of weight `2147483647` (a representable `i32` weight), node `2` is
reachable from node `1`, yet a terminating run of `Graph::dijkstra` from
node `1` omits node `2` from the returned mapping: the relaxation guard
compares the candidate cost `0 + 2147483647` against the `i32::MAX`
default and rejects it. So the keys are not exactly the reachable nodes. -/
theorem dijkstra_reachable_key_counterexample :
    (dijkstraRun (Graph.mk [(1, [⟨2, 2147483647⟩])]) 1 5).2 = [] ∧
    NonnegWeights (Graph.mk [(1, [⟨2, 2147483647⟩])]) ∧
    Reachable (Graph.mk [(1, [⟨2, 2147483647⟩])]) 1 2 ∧
    distGet ((Graph.mk [(1, [⟨2, 2147483647⟩])]).dijkstra 1 5) 2 = none := by
  refine ⟨by decide, by decide, ⟨0 + 2147483647, ?_⟩, by decide⟩
  exact Reaches.step (e := ⟨2, 2147483647⟩) Reaches.refl (by decide)

/-- Claim C6, amended: for every graph and start node, every key of a
terminating `Graph::dijkstra` run is reachable from the start node; and,
for non-negative weights, every node reachable by a path of accumulated
cost below `2147483647` (`i32::MAX`) appears as a key. Reachable nodes
whose every path costs at least `i32::MAX` may be absent. -/
theorem dijkstra_keys_are_reachable_amended (g : Graph) (start : Int) (fuel : Nat)
    (hterm : (dijkstraRun g start fuel).2 = []) :
    (∀ n c, distGet (g.dijkstra start fuel) n = some c → Reachable g start n) ∧
    (NonnegWeights g → ∀ n c, Reaches g start n c → c < 2147483647 →
      ∃ cv, distGet (g.dijkstra start fuel) n = some cv) := by
  have hinv := dijkstraRun_inv g start fuel
  rw [hterm] at hinv
  constructor
  · intro n c hc
    exact ⟨c, hinv.soundD n c hc⟩
  · intro hw n c hr hlt
    obtain ⟨cv, hcv, _⟩ := reaches_key hinv hw hr hlt
    exact ⟨cv, hcv⟩

theorem dijkstra_keys_are_reachable_amended_witness :
    ∃ cv, distGet ((Graph.mk [(1, [⟨2, 4⟩])]).dijkstra 1 10) 2 = some cv :=
  (dijkstra_keys_are_reachable_amended (Graph.mk [(1, [⟨2, 4⟩])]) 1 10 (by decide)).2
    (by decide) 2 (0 + 4) (Reaches.step (e := ⟨2, 4⟩) Reaches.refl (by decide))
    (by decide)

/-- A tow truck record. `models/tow_truck.rs` is not among the sources; the
fields are those the embedded services read (spec section 3: identifier,
current node id, driver reference, area id, status). -/
structure TowTruck where
  id : Int
  node_id : Int
  driver_id : Int
  area_id : Int
  status : String
deriving DecidableEq

/-- The effective distance of a candidate truck in
`get_nearest_available_tow_trucks`:
`distances_from_order.get(&truck.node_id).cloned().unwrap_or(10000001)`. -/
def effectiveDistance (d : DistMap) (t : TowTruck) : Int :=
  (distGet d t.node_id).getD 10000001

/-- The `for truck in tow_trucks` selection loop of
`get_nearest_available_tow_trucks`, carrying the mutable state
`(nearest_truck, min_distance, min_truck_id)`. A candidate replaces the
current best when its distance is strictly smaller, or equal with a
strictly smaller node id (the source compares and stores `truck.node_id`
in `min_truck_id`). -/
def selectLoop (d : DistMap) :
    List TowTruck → Option TowTruck → Int → Int → Option TowTruck × Int × Int
  | [], nearest, min_distance, min_truck_id => (nearest, min_distance, min_truck_id)
  | truck :: rest, nearest, min_distance, min_truck_id =>
    if effectiveDistance d truck < min_distance ∨
        (effectiveDistance d truck = min_distance ∧ truck.node_id < min_truck_id) then
      selectLoop d rest (some truck) (effectiveDistance d truck) truck.node_id
    else
      selectLoop d rest nearest min_distance min_truck_id

/-- The whole `nearest_tow_truck` block: the loop starts from
`(None, 10000001, i32::MAX)` and the result is discarded when the minimal
distance still equals the sentinel `10000001`. -/
def selectNearest (d : DistMap) (tow_trucks : List TowTruck) : Option TowTruck :=
  if (selectLoop d tow_trucks none 10000001 2147483647).2.1 = 10000001 then none
  else (selectLoop d tow_trucks none 10000001 2147483647).1

theorem selectLoop_spec (d : DistMap) :
    ∀ (ts : List TowTruck) (nearest : Option TowTruck) (md mid : Int),
      (∀ u ∈ ts,
        (selectLoop d ts nearest md mid).2.1 < effectiveDistance d u ∨
          ((selectLoop d ts nearest md mid).2.1 = effectiveDistance d u ∧
            (selectLoop d ts nearest md mid).2.2 ≤ u.node_id)) ∧
      ((selectLoop d ts nearest md mid).2.1 < md ∨
        ((selectLoop d ts nearest md mid).2.1 = md ∧
          (selectLoop d ts nearest md mid).2.2 ≤ mid)) ∧
      (selectLoop d ts nearest md mid = (nearest, md, mid) ∨
        ∃ t ∈ ts, (selectLoop d ts nearest md mid).1 = some t ∧
          effectiveDistance d t = (selectLoop d ts nearest md mid).2.1 ∧
          t.node_id = (selectLoop d ts nearest md mid).2.2) := by
  intro ts
  induction ts with
  | nil =>
    intro nearest md mid
    refine ⟨fun u hu => absurd hu (List.not_mem_nil u), Or.inr ⟨rfl, le_refl mid⟩,
      Or.inl rfl⟩
  | cons truck rest ih =>
    intro nearest md mid
    by_cases hcond : effectiveDistance d truck < md ∨
        (effectiveDistance d truck = md ∧ truck.node_id < mid)
    · have hstep : selectLoop d (truck :: rest) nearest md mid =
          selectLoop d rest (some truck) (effectiveDistance d truck) truck.node_id := by
        simp only [selectLoop, if_pos hcond]
      obtain ⟨ha, hb, hc⟩ := ih (some truck) (effectiveDistance d truck) truck.node_id
      rw [hstep]
      refine ⟨?_, ?_, ?_⟩
      · intro u hu
        rcases List.mem_cons.mp hu with h1 | h1
        · subst h1
          exact hb
        · exact ha u h1
      · rcases hb with h1 | ⟨h1, h2⟩ <;> rcases hcond with h3 | ⟨h3, h4⟩ <;> omega
      · rcases hc with h1 | ⟨t, ht, h2, h3, h4⟩
        · refine Or.inr ⟨truck, List.mem_cons_self _ _, ?_, ?_, ?_⟩
          · rw [h1]
          · rw [h1]
          · rw [h1]
        · exact Or.inr ⟨t, List.mem_cons_of_mem _ ht, h2, h3, h4⟩
    · have hstep : selectLoop d (truck :: rest) nearest md mid =
          selectLoop d rest nearest md mid := by
        simp only [selectLoop, if_neg hcond]
      obtain ⟨ha, hb, hc⟩ := ih nearest md mid
      rw [hstep]
      refine ⟨?_, hb, ?_⟩
      · intro u hu
        rcases List.mem_cons.mp hu with h1 | h1
        · subst h1
          rcases hb with h2 | ⟨h2, h3⟩ <;>
            [skip; skip] <;>
            · rcases not_or.mp hcond with ⟨h4, h5⟩
              rcases not_and_or.mp h5 with h6 | h6 <;> omega
        · exact ha u h1
      · rcases hc with h1 | ⟨t, ht, h2, h3, h4⟩
        · exact Or.inl h1
        · exact Or.inr ⟨t, List.mem_cons_of_mem _ ht, h2, h3, h4⟩

/-- Claim C4: whenever some candidate has a finite effective distance
(strictly below the sentinel `10000001`), the selection loop of
`get_nearest_available_tow_trucks` returns a candidate whose effective
distance is minimal, and whose node id is minimal among candidates of
equal effective distance. -/
theorem selector_picks_nearest_with_node_id_tiebreak (d : DistMap) (ts : List TowTruck)
    (hex : ∃ u ∈ ts, effectiveDistance d u < 10000001) :
    ∃ t, selectNearest d ts = some t ∧ t ∈ ts ∧
      ∀ u ∈ ts, effectiveDistance d t < effectiveDistance d u ∨
        (effectiveDistance d t = effectiveDistance d u ∧ t.node_id ≤ u.node_id) := by
  obtain ⟨u0, hu0, hlt0⟩ := hex
  obtain ⟨ha, hb, hc⟩ := selectLoop_spec d ts none 10000001 2147483647
  have hmdlt : (selectLoop d ts none 10000001 2147483647).2.1 < 10000001 := by
    rcases ha u0 hu0 with h | ⟨h, _⟩ <;> omega
  have hne : ¬((selectLoop d ts none 10000001 2147483647).2.1 = 10000001) := by omega
  have hsel : selectNearest d ts = (selectLoop d ts none 10000001 2147483647).1 := by
    simp only [selectNearest, if_neg hne]
  rcases hc with heq | ⟨t, ht, h1, h2, h3⟩
  · exfalso
    rw [heq] at hne
    exact hne rfl
  · refine ⟨t, by rw [hsel]; exact h1, ht, ?_⟩
    intro u hu
    rw [h2]
    rcases ha u hu with h4 | ⟨h4, h5⟩
    · exact Or.inl h4
    · exact Or.inr ⟨h4, h3 ▸ h5⟩

theorem selector_picks_nearest_with_node_id_tiebreak_witness :
    ∃ t, selectNearest [(7, 3), (2, 3)]
        [⟨1, 7, 11, 1, "available"⟩, ⟨2, 2, 12, 1, "available"⟩] = some t ∧
      t ∈ [⟨1, 7, 11, 1, "available"⟩, (⟨2, 2, 12, 1, "available"⟩ : TowTruck)] ∧
      ∀ u ∈ [⟨1, 7, 11, 1, "available"⟩, (⟨2, 2, 12, 1, "available"⟩ : TowTruck)],
        effectiveDistance [(7, 3), (2, 3)] t < effectiveDistance [(7, 3), (2, 3)] u ∨
          (effectiveDistance [(7, 3), (2, 3)] t = effectiveDistance [(7, 3), (2, 3)] u ∧
            t.node_id ≤ u.node_id) :=
  selector_picks_nearest_with_node_id_tiebreak [(7, 3), (2, 3)]
    [⟨1, 7, 11, 1, "available"⟩, ⟨2, 2, 12, 1, "available"⟩]
    ⟨⟨2, 2, 12, 1, "available"⟩, by decide, by decide⟩

/-- Claim C7: the selection loop of `get_nearest_available_tow_trucks`
returns `None` when the candidate list is empty, and when every
candidate's node id is absent from the distance map (every effective
distance is the unreachable sentinel `10000001`). -/
theorem selector_returns_none_when_no_candidate (d : DistMap) (ts : List TowTruck)
    (h : ts = [] ∨ ∀ t ∈ ts, distGet d t.node_id = none) :
    selectNearest d ts = none := by
  have hall : ∀ t ∈ ts, effectiveDistance d t = 10000001 := by
    rcases h with h1 | h1
    · subst h1
      intro t ht
      exact absurd ht (List.not_mem_nil t)
    · intro t ht
      unfold effectiveDistance
      rw [h1 t ht]
      rfl
  obtain ⟨_, _, hc⟩ := selectLoop_spec d ts none 10000001 2147483647
  have hmd : (selectLoop d ts none 10000001 2147483647).2.1 = 10000001 := by
    rcases hc with heq | ⟨t, ht, _, h2, _⟩
    · rw [heq]
    · rw [← h2]
      exact hall t ht
  simp only [selectNearest, if_pos hmd]

theorem selector_returns_none_when_no_candidate_witness :
    selectNearest [(5, 9)] [] = none :=
  selector_returns_none_when_no_candidate [(5, 9)] [] (Or.inl rfl)

/-- Claim C10: the selection loop of `get_nearest_available_tow_trucks`
never returns a truck whose effective distance is `10000001` or more: a
candidate whose node id is mapped to a distance at or above the sentinel
is treated like an unreachable candidate, and if every candidate is in
that situation the result is `None`. -/
theorem selector_sentinel_distance_never_selected (d : DistMap) (ts : List TowTruck) :
    (∀ t, selectNearest d ts = some t → effectiveDistance d t < 10000001) ∧
    ((∀ t ∈ ts, 10000001 ≤ effectiveDistance d t) → selectNearest d ts = none) := by
  obtain ⟨_, hb, hc⟩ := selectLoop_spec d ts none 10000001 2147483647
  constructor
  · intro t hsel
    by_cases hmd : (selectLoop d ts none 10000001 2147483647).2.1 = 10000001
    · simp only [selectNearest, if_pos hmd] at hsel
      exact Option.noConfusion hsel
    · simp only [selectNearest, if_neg hmd] at hsel
      rcases hc with heq | ⟨t2, _, h2, h3, _⟩
      · rw [heq] at hsel
        exact Option.noConfusion hsel
      · have ht2 : t2 = t := by
          rw [h2] at hsel
          exact Option.some_inj.mp hsel
        rw [← ht2, h3]
        rcases hb with h4 | ⟨h4, _⟩ <;> omega
  · intro hge
    have hmd : (selectLoop d ts none 10000001 2147483647).2.1 = 10000001 := by
      rcases hc with heq | ⟨t, ht, _, h2, _⟩
      · rw [heq]
      · have := hge t ht
        rw [h2] at this
        rcases hb with h4 | ⟨h4, _⟩ <;> omega
    simp only [selectNearest, if_pos hmd]

theorem selector_sentinel_distance_never_selected_witness :
    selectNearest [(4, 10000001)] [⟨1, 4, 11, 1, "available"⟩] = none :=
  (selector_sentinel_distance_never_selected [(4, 10000001)]
    [⟨1, 4, 11, 1, "available"⟩]).2 (by decide)

/-- Modelled from the spec: `errors.rs` is not among the sources. Section 7
gives the error taxonomy (not-found, bad input, opaque collaborator
failure); the sources construct `AppError::BadRequest` explicitly and
convert repository errors opaquely via `?`. -/
inductive AppError
  | BadRequest
  | NotFound
  | InternalServerError
deriving DecidableEq

/-- One observable repository write, in program order. Read-only repository
calls record no effect. -/
inductive Effect
  | orderCreated (client_id node_id area_id : Int)
  | createdCompletedOrder (order_id tow_truck_id completed_time : Int)
  | orderDispatched (id dispatcher_id tow_truck_id : Int)
  | truckStatusUpdated (truck_id : Int) (status : String)
deriving DecidableEq

/-- An order row (`models/order.rs` is not among the sources; the fields
are the ones the embedded services and the SQL of `order_repository.rs`
read and write; timestamps and `car_value : f64` carry no information used
by any claim, `car_value` is modelled as `Int` and timestamps are kept out
of the row). -/
structure Order where
  id : Int
  client_id : Int
  dispatcher_id : Option Int
  tow_truck_id : Option Int
  status : String
  node_id : Int
  area_id : Int
  car_value : Int
deriving DecidableEq

/-- A row of `completed_orders` (`DateTime<Utc>` modelled as `Int`). -/
structure CompletedOrder where
  order_id : Int
  tow_truck_id : Int
  completed_time : Int
deriving DecidableEq

/-- A node row of the map store (id and owning area, spec section 3). -/
structure MapNode where
  id : Int
  area_id : Int
deriving DecidableEq

/-- An edge row of the map store (directed pair plus weight, scoped to an
area for retrieval, spec section 3). -/
structure MapEdge where
  node_a_id : Int
  node_b_id : Int
  weight : Int
  area_id : Int
deriving DecidableEq

/-- The persisted state the repositories act on: the `orders`,
`tow_trucks`, `completed_orders`, `nodes` and `edges` tables, plus the
auto-increment counter for order ids. -/
structure World where
  orders : List Order
  tow_trucks : List TowTruck
  completed_orders : List CompletedOrder
  nodes : List MapNode
  map_edges : List MapEdge
  next_order_id : Int
deriving DecidableEq

/-- Embeds `OrderRepositoryImpl::create_completed_order`:
`INSERT INTO completed_orders (order_id, tow_truck_id, completed_time)`. -/
def create_completed_order (w : World) (order_id tow_truck_id completed_time : Int) :
    World :=
  { w with completed_orders :=
      w.completed_orders ++ [⟨order_id, tow_truck_id, completed_time⟩] }

/-- Embeds `OrderRepositoryImpl::update_order_dispatched`: `UPDATE orders SET
dispatcher_id = ?, tow_truck_id = ?, status = 'dispatched' WHERE id = ?`. -/
def update_order_dispatched (w : World) (id dispatcher_id tow_truck_id : Int) : World :=
  { w with orders := w.orders.map fun o =>
      if o.id = id then
        { o with
          dispatcher_id := some dispatcher_id,
          tow_truck_id := some tow_truck_id,
          status := "dispatched" }
      else o }

/-- Embeds `TowTruckRepository::update_status` (the truck repository
implementation is not among the sources; modelled from the spec, section
6: update the status of one truck). -/
def update_status (w : World) (truck_id : Int) (status : String) : World :=
  { w with tow_trucks := w.tow_trucks.map fun t =>
      if t.id = truck_id then { t with status := status } else t }

/-- Embeds `OrderService::create_dispatcher_order` (commit dispatch). The three
repository writes are `async` database calls whose failures are
environmental; each is modelled by an `Option AppError` oracle (`none` is
success). On success the SQL semantics from `order_repository.rs` is
applied to the world and the write is appended to the effect trace, in
program order. A failure of the first step returns `AppError::BadRequest`
(the explicit `is_err` match in the source), applying nothing; failures of
the remaining steps propagate via `?` after the earlier writes have taken
effect. -/
def create_dispatcher_order (f1 f2 f3 : Option AppError) (w : World)
    (order_id dispatcher_id tow_truck_id order_time : Int) :
    Except AppError Unit × World × List Effect :=
  match f1 with
  | some _ => (Except.error AppError.BadRequest, w, [])
  | none =>
    match f2 with
    | some e =>
      (Except.error e, create_completed_order w order_id tow_truck_id order_time,
        [Effect.createdCompletedOrder order_id tow_truck_id order_time])
    | none =>
      match f3 with
      | some e =>
        (Except.error e,
          update_order_dispatched
            (create_completed_order w order_id tow_truck_id order_time)
            order_id dispatcher_id tow_truck_id,
          [Effect.createdCompletedOrder order_id tow_truck_id order_time,
            Effect.orderDispatched order_id dispatcher_id tow_truck_id])
      | none =>
        (Except.ok (),
          update_status
            (update_order_dispatched
              (create_completed_order w order_id tow_truck_id order_time)
              order_id dispatcher_id tow_truck_id)
            tow_truck_id "busy",
          [Effect.createdCompletedOrder order_id tow_truck_id order_time,
            Effect.orderDispatched order_id dispatcher_id tow_truck_id,
            Effect.truckStatusUpdated tow_truck_id "busy"])

/-- Embeds `OrderRepositoryImpl::create_order`: resolve the node's area id
(`SELECT area_id FROM nodes WHERE id = ?`, a row-not-found error when the
node is absent) and INSERT a `pending` order with no dispatcher and no
truck; the row id is the database-assigned auto-increment value. -/
def create_order (w : World) (client_id node_id car_value : Int) :
    Except AppError (World × List Effect) :=
  match w.nodes.find? (fun nd => nd.id == node_id) with
  | none => Except.error AppError.NotFound
  | some nd =>
    Except.ok
      ({ w with
          orders := w.orders ++ [⟨w.next_order_id, client_id, none, none, "pending",
            node_id, nd.area_id, car_value⟩],
          next_order_id := w.next_order_id + 1 },
        [Effect.orderCreated client_id node_id nd.area_id])

/-- Embeds `OrderService::create_client_order`: any failure of the repository
`create_order` call is replaced by `AppError::BadRequest` (the explicit
match in the source); success returns `Ok(())`. `f` injects an
environmental database failure. -/
def create_client_order (f : Option AppError) (w : World)
    (client_id node_id car_value : Int) : Except AppError Unit × World × List Effect :=
  match f with
  | some _ => (Except.error AppError.BadRequest, w, [])
  | none =>
    match create_order w client_id node_id car_value with
    | Except.error _ => (Except.error AppError.BadRequest, w, [])
    | Except.ok (w2, t) => (Except.ok (), w2, t)

/-- Embeds `OrderRepositoryImpl::find_order_by_id`: `fetch_one` on `orders`; an
absent row is a row-not-found repository error (spec section 7 taxonomy). -/
def find_order_by_id (w : World) (id : Int) : Except AppError Order :=
  match w.orders.find? (fun o => o.id == id) with
  | some o => Except.ok o
  | none => Except.error AppError.NotFound

/-- Modelled from the spec: the map repository is not among the sources;
section 6 gives the capability "resolve area id for a node id". -/
def get_area_id_by_node_id (w : World) (node_id : Int) : Except AppError Int :=
  match w.nodes.find? (fun nd => nd.id == node_id) with
  | some nd => Except.ok nd.area_id
  | none => Except.error AppError.NotFound

/-- Modelled from the spec: the tow-truck repository is not among the
sources; section 6: listing filtered by status and area (the orchestrator
passes page 0 and page size -1, i.e. the whole filtered listing). -/
def get_paginated_tow_trucks (w : World) (status : String) (area_id : Int) :
    List TowTruck :=
  w.tow_trucks.filter (fun t => t.status == status && t.area_id == area_id)

/-- Modelled from the spec: the map repository listing of an area's nodes. -/
def get_all_nodes (w : World) (area_id : Int) : List MapNode :=
  w.nodes.filter (fun nd => nd.area_id == area_id)

/-- Modelled from the spec: the map repository listing of an area's edges. -/
def get_all_edges (w : World) (area_id : Int) : List MapEdge :=
  w.map_edges.filter (fun e => e.area_id == area_id)

/-- Modelled from the spec (section 4.1): `Graph::add_node` registers an
empty adjacency entry for the node, idempotently (`models/graph.rs` is not
among the sources). -/
def Graph.add_node (g : Graph) (nd : MapNode) : Graph :=
  match edgesGet g.edges nd.id with
  | some _ => g
  | none => ⟨g.edges ++ [(nd.id, [])]⟩

/-- Append an edge to the adjacency entry of key `k`, creating the entry
when absent. -/
def appendEdge : List (Int × List Edge) → Int → Edge → List (Int × List Edge)
  | [], k, e => [(k, [e])]
  | (k2, l) :: t, k, e =>
    if k2 = k then (k2, l ++ [e]) :: t else (k2, l) :: appendEdge t k e

/-- Modelled from the spec (section 4.1): `Graph::add_edge` appends the
edge to its source node's adjacency list, creating the entry if absent. -/
def Graph.add_edge (g : Graph) (me : MapEdge) : Graph :=
  ⟨appendEdge g.edges me.node_a_id ⟨me.node_b_id, me.weight⟩⟩

/-- The graph construction loop of `get_nearest_available_tow_trucks`:
all nodes are registered, then all edges appended. -/
def buildGraph (nodes : List MapNode) (edges : List MapEdge) : Graph :=
  edges.foldl Graph.add_edge (nodes.foldl Graph.add_node ⟨[]⟩)

/-- The truck view returned to callers; `TowTruckDto::from_entity` (the
DTO module is not among the sources; modelled from the spec as a plain
view of the truck entity). -/
structure TowTruckDto where
  id : Int
  node_id : Int
  driver_id : Int
  area_id : Int
  status : String
deriving DecidableEq

/-- Embeds `TowTruckDto::from_entity`. -/
def TowTruckDto.from_entity (t : TowTruck) : TowTruckDto :=
  ⟨t.id, t.node_id, t.driver_id, t.area_id, t.status⟩

/-- Embeds `TowTruckService::get_nearest_available_tow_trucks`: load the order,
resolve its area, list the available trucks of that area, build the
transient graph from the area's nodes and edges, run `Graph::dijkstra`
from the order's node, and run the selection loop. Every repository call
along the way is a read; the returned world and effect trace make that
observable. -/
def get_nearest_available_tow_trucks (fuel : Nat) (w : World) (order_id : Int) :
    Except AppError (Option TowTruckDto) × World × List Effect :=
  match find_order_by_id w order_id with
  | Except.error e => (Except.error e, w, [])
  | Except.ok order =>
    match get_area_id_by_node_id w order.node_id with
    | Except.error e => (Except.error e, w, [])
    | Except.ok area_id =>
      match
        selectNearest
          ((buildGraph (get_all_nodes w area_id) (get_all_edges w area_id)).dijkstra
            order.node_id fuel)
          (get_paginated_tow_trucks w "available" area_id)
      with
      | some truck => (Except.ok (some (TowTruckDto.from_entity truck)), w, [])
      | none => (Except.ok none, w, [])

/-- The number of completion records stored for an order id. -/
def countCompleted (w : World) (order_id : Int) : Nat :=
  (w.completed_orders.filter (fun c => c.order_id == order_id)).length

theorem update_status_orders (w : World) (tid : Int) (s : String) :
    (update_status w tid s).orders = w.orders := rfl

theorem update_status_completed (w : World) (tid : Int) (s : String) :
    (update_status w tid s).completed_orders = w.completed_orders := rfl

theorem update_order_dispatched_tow_trucks (w : World) (id did tid : Int) :
    (update_order_dispatched w id did tid).tow_trucks = w.tow_trucks := rfl

theorem update_order_dispatched_completed (w : World) (id did tid : Int) :
    (update_order_dispatched w id did tid).completed_orders = w.completed_orders := rfl

theorem create_completed_order_orders (w : World) (oid tid t : Int) :
    (create_completed_order w oid tid t).orders = w.orders := rfl

theorem create_completed_order_tow_trucks (w : World) (oid tid t : Int) :
    (create_completed_order w oid tid t).tow_trucks = w.tow_trucks := rfl

/-- Claim C2: when commit dispatch (`create_dispatcher_order`) succeeds,
the order is `dispatched` with the given dispatcher and truck references,
the truck is `busy`, the completion record for the given order, truck and
timestamp has been created, and the three writes happen in exactly the
order completion record, order update, truck update. -/
theorem commit_dispatch_success_postcondition (w : World)
    (order_id dispatcher_id tow_truck_id order_time : Int) :
    (create_dispatcher_order none none none w order_id dispatcher_id tow_truck_id
        order_time).1 = Except.ok () ∧
    (∀ o ∈ (create_dispatcher_order none none none w order_id dispatcher_id tow_truck_id
        order_time).2.1.orders, o.id = order_id →
      o.status = "dispatched" ∧ o.dispatcher_id = some dispatcher_id ∧
        o.tow_truck_id = some tow_truck_id) ∧
    (∀ t ∈ (create_dispatcher_order none none none w order_id dispatcher_id tow_truck_id
        order_time).2.1.tow_trucks, t.id = tow_truck_id → t.status = "busy") ∧
    (create_dispatcher_order none none none w order_id dispatcher_id tow_truck_id
        order_time).2.1.completed_orders =
      w.completed_orders ++ [⟨order_id, tow_truck_id, order_time⟩] ∧
    (create_dispatcher_order none none none w order_id dispatcher_id tow_truck_id
        order_time).2.2 =
      [Effect.createdCompletedOrder order_id tow_truck_id order_time,
        Effect.orderDispatched order_id dispatcher_id tow_truck_id,
        Effect.truckStatusUpdated tow_truck_id "busy"] := by
  refine ⟨rfl, ?_, ?_, rfl, rfl⟩
  · intro o ho hoid
    have ho2 : o ∈ (update_order_dispatched
        (create_completed_order w order_id tow_truck_id order_time)
        order_id dispatcher_id tow_truck_id).orders := ho
    simp only [update_order_dispatched, List.mem_map] at ho2
    obtain ⟨a, _, rfl⟩ := ho2
    by_cases hid : a.id = order_id
    · simp [hid]
    · rw [if_neg hid] at hoid
      exact absurd hoid hid
  · intro t ht htid
    have ht2 : t ∈ (w.tow_trucks.map fun t2 =>
        if t2.id = tow_truck_id then { t2 with status := "busy" } else t2) := ht
    simp only [List.mem_map] at ht2
    obtain ⟨a, _, rfl⟩ := ht2
    by_cases hid : a.id = tow_truck_id
    · simp only [if_pos hid]
    · rw [if_neg hid] at htid
      exact absurd htid hid

/-- Claim C3: when the first effect of commit dispatch, creating the
completion record, fails, the whole operation returns an error
(`AppError::BadRequest`) and nothing is applied: the world is returned
unchanged and the effect trace is empty, whatever the later oracles say. -/
theorem commit_dispatch_first_step_failure_no_effects (e : AppError)
    (f2 f3 : Option AppError) (w : World)
    (order_id dispatcher_id tow_truck_id order_time : Int) :
    create_dispatcher_order (some e) f2 f3 w order_id dispatcher_id tow_truck_id
        order_time =
      (Except.error AppError.BadRequest, w, []) := rfl

theorem commit_dispatch_first_step_failure_no_effects_witness :
    create_dispatcher_order (some AppError.InternalServerError) none none
        ⟨[], [], [], [], [], 1⟩ 1 4 5 100 =
      (Except.error AppError.BadRequest, ⟨[], [], [], [], [], 1⟩, []) :=
  commit_dispatch_first_step_failure_no_effects AppError.InternalServerError none none
    ⟨[], [], [], [], [], 1⟩ 1 4 5 100

/-- Claim C5, counterexample: the repository produces
`AppError::InternalServerError` during order creation, yet
`create_client_order` returns `AppError::BadRequest` — the collaborator
failure does not propagate to the caller unmodified. -/
theorem error_propagation_counterexample :
    (create_client_order (some AppError.InternalServerError)
        ⟨[], [], [], [], [], 1⟩ 1 2 3).1 = Except.error AppError.BadRequest ∧
    AppError.BadRequest ≠ AppError.InternalServerError :=
  ⟨rfl, by decide⟩

/-- Claim C5, amended: collaborator failures of the mark-dispatched and
mark-truck-busy steps of commit dispatch propagate to the caller
unmodified (via `?`), while failures of order creation and of the
completion-record step are replaced by `AppError::BadRequest` by the
explicit matches in `OrderService`. -/
theorem error_propagation_amended (e : AppError) (f2 f3 : Option AppError) (w : World)
    (order_id dispatcher_id tow_truck_id order_time client_id node_id car_value : Int) :
    (create_dispatcher_order none (some e) f3 w order_id dispatcher_id tow_truck_id
        order_time).1 = Except.error e ∧
    (create_dispatcher_order none none (some e) w order_id dispatcher_id tow_truck_id
        order_time).1 = Except.error e ∧
    (create_dispatcher_order (some e) f2 f3 w order_id dispatcher_id tow_truck_id
        order_time).1 = Except.error AppError.BadRequest ∧
    (create_client_order (some e) w client_id node_id car_value).1 =
      Except.error AppError.BadRequest :=
  ⟨rfl, rfl, rfl, rfl⟩

/-- Claim C8: commit dispatch is not idempotent. Starting from a world
with no completion record for the order, two successful invocations of
`create_dispatcher_order` for the same order id are both accepted, and two
completion records for that order exist afterwards. -/
theorem commit_dispatch_not_idempotent (w : World)
    (order_id dispatcher_id tow_truck_id time1 time2 : Int)
    (h : countCompleted w order_id = 0) :
    (create_dispatcher_order none none none w order_id dispatcher_id tow_truck_id
        time1).1 = Except.ok () ∧
    (create_dispatcher_order none none none
        (create_dispatcher_order none none none w order_id dispatcher_id tow_truck_id
          time1).2.1 order_id dispatcher_id tow_truck_id time2).1 = Except.ok () ∧
    countCompleted
      (create_dispatcher_order none none none
        (create_dispatcher_order none none none w order_id dispatcher_id tow_truck_id
          time1).2.1 order_id dispatcher_id tow_truck_id time2).2.1 order_id = 2 := by
  refine ⟨rfl, rfl, ?_⟩
  have hw2 : (create_dispatcher_order none none none
      (create_dispatcher_order none none none w order_id dispatcher_id tow_truck_id
        time1).2.1 order_id dispatcher_id tow_truck_id time2).2.1.completed_orders =
      (w.completed_orders ++ [⟨order_id, tow_truck_id, time1⟩]) ++
        [⟨order_id, tow_truck_id, time2⟩] := rfl
  unfold countCompleted at h ⊢
  rw [hw2]
  simp [List.filter_append, h]

theorem commit_dispatch_not_idempotent_witness :
    countCompleted
      (create_dispatcher_order none none none
        (create_dispatcher_order none none none ⟨[], [], [], [], [], 1⟩ 1 4 5 100).2.1
        1 4 5 200).2.1 1 = 2 :=
  (commit_dispatch_not_idempotent ⟨[], [], [], [], [], 1⟩ 1 4 5 100 200 (by decide)).2.2

/-- Claim C9: `get_nearest_available_tow_trucks` is side-effect-free: for
every order id and every outcome (a truck, none found, or an error), the
persisted world is returned unchanged and the effect trace is empty — no
order, truck, completion record, node or edge is written. -/
theorem find_nearest_is_side_effect_free (fuel : Nat) (w : World) (order_id : Int) :
    (get_nearest_available_tow_trucks fuel w order_id).2.1 = w ∧
    (get_nearest_available_tow_trucks fuel w order_id).2.2 = [] := by
  refine ⟨?_, ?_⟩ <;>
    (unfold get_nearest_available_tow_trucks
     split
     · rfl
     · split
       · rfl
       · split <;> rfl)
